import Mathlib

/-!
Shallow embedding of the ledger journal parser and transaction balancer.

The embedding follows the Go sources of the repository: the value types
(`types.go`), the balancer with two-currency conversion inference
(`IsBalanced` and `inferConversionFactorForTwoCurrencyTx`), the posting
grammar and the block-oriented parser, and the batch collection loops of
`ParseLedgerFile`/`ParseLedger` (`parse.go`).

Conventions used throughout:
* shopspring decimals are embedded as rationals; `Add`/`Mul`/`Neg` are exact
  in the library, `Div` rounds to `DivisionPrecision = 16` decimal places,
  which `decDiv` reproduces;
* Go `nil`-able decimal pointers become `Option Dec`;
* functions that mutate a value through a pointer receiver are embedded as
  functions returning the updated value together with the error result.
-/

namespace LedgerSpec

/-- shopspring decimal values are exact scaled decimals; we embed them as
rationals.  Addition, multiplication and negation are exact in the library,
matching rational arithmetic. -/
abbrev Dec := ℚ

/-- shopspring `decimal.DivisionPrecision` (default 16). -/
def divisionPrecision : Nat := 16

/-- `decimal.Div`: the exact quotient rounded half away from zero to
`DivisionPrecision` decimal places when the division is not exact. -/
def decDiv (a b : Dec) : Dec :=
  let q := a / b
  let scaled := q * ((10 : ℚ) ^ divisionPrecision)
  let n : ℤ := if 0 ≤ scaled then Rat.floor (scaled + 1/2) else -Rat.floor (1/2 - scaled)
  (n : ℚ) / ((10 : ℚ) ^ divisionPrecision)

/-- Calendar date of a transaction (`time.Time` in the source carries no
time-of-day semantics per the spec). -/
structure Date where
  year : Nat
  month : Nat
  day : Nat
deriving DecidableEq, Repr

/-- `Account` from `types.go` (the snapshot used by the balancer also has the
`Currency` field; the parser stores `""` when no currency token is present). -/
structure Account where
  Name : String
  Currency : String
  Balance : Dec
  Comment : String
  Converted : Option Dec
  ConversionFactor : Option Dec
deriving DecidableEq, Repr

/-- `Transaction` from `types.go`. -/
structure Transaction where
  Date : Date
  Payee : String
  PayeeComment : String
  AccountChanges : List Account
  Comments : List String
deriving DecidableEq, Repr

/-- The three error values of `transaction.go`. -/
inductive BalanceError where
  | needAtLeastTwoPostings
  | noEmptyAccountForExtraBalance
  | moreThanOneEmptyAccountInTx
deriving DecidableEq, Repr

/-- The `errors.New` message attached to each balance error. -/
def BalanceError.message : BalanceError → String
  | .needAtLeastTwoPostings => "need at least two postings"
  | .noEmptyAccountForExtraBalance =>
      "unable to balance transaction: no empty account to place extra balance"
  | .moreThanOneEmptyAccountInTx =>
      "unable to balance transaction: more than one account empty"

/-- Common-unit contribution of one posting, as accumulated by `IsBalanced`:
`-Converted` when an explicit converted amount is present, else
`Balance * ConversionFactor` when a factor is present, else `Balance`. -/
def contribution (a : Account) : Dec :=
  match a.Converted with
  | some c => -c
  | none =>
    match a.ConversionFactor with
    | some f => a.Balance * f
    | none => a.Balance

/-- Running total `transBal` over the postings. -/
def commonSum (l : List Account) : Dec := (l.map contribution).sum

/-- `numEmpty`: the number of postings whose `Balance` is zero. -/
def numEmpty (l : List Account) : Nat := l.countP (fun a => a.Balance = 0)

/-- The loop computing `emptyAccIndex`: `i` is the running posting index,
`cur` the value of the variable so far (initially 0). -/
def lastZeroIdxGo (i cur : Nat) : List Account → Nat
  | [] => cur
  | a :: rest => lastZeroIdxGo (i + 1) (if a.Balance = 0 then i else cur) rest

/-- `emptyAccIndex`: the index of the last posting with zero `Balance`
(0 when there is none), exactly as the Go loop leaves the variable. -/
def lastZeroIdx (l : List Account) : Nat := lastZeroIdxGo 0 0 l

/-- Writes `Balance` of the posting at `idx`
(`t.AccountChanges[emptyAccIndex].Balance = ...`). -/
def setBalanceAt (l : List Account) (idx : Nat) (v : Dec) : List Account :=
  match l, idx with
  | [], _ => []
  | a :: rest, 0 => { a with Balance := v } :: rest
  | a :: rest, n + 1 => a :: setBalanceAt rest n v

/-- One step of building `currencyMap`: the map is embedded as an association
list in first-insertion key order.  The order in which Go's `range` loop
later iterates the map is unspecified; `mapRange` below makes that order an
explicit parameter, and the pinned embedding (`mapRange false`, first-seen
order) is the choice §9 of the spec fixes and the repository's own tests
assert. -/
def addToGroup (m : List (String × List Nat)) (key : String) (i : Nat) :
    List (String × List Nat) :=
  match m with
  | [] => [(key, [i])]
  | (k, g) :: rest =>
    if k = key then (k, g ++ [i]) :: rest else (k, g) :: addToGroup rest key i

/-- The map-building loop of `inferConversionFactorForTwoCurrencyTx`:
returns `none` when a posting with empty currency is encountered (the source
returns `nil` early, leaving the transaction untouched). -/
def buildCurrencyMapGo (i : Nat) (rem : List Account)
    (m : List (String × List Nat)) : Option (List (String × List Nat)) :=
  match rem with
  | [] => some m
  | a :: rest =>
    if a.Currency = "" then none
    else buildCurrencyMapGo (i + 1) rest (addToGroup m a.Currency i)

def buildCurrencyMap (l : List Account) : Option (List (String × List Nat)) :=
  buildCurrencyMapGo 0 l []

/-- Whether any posting of the group carries an explicit `@` factor
(`hasConv0` / `hasConv1` in the source check only `ConversionFactor`). -/
def groupHasConv (l : List Account) (g : List Nat) : Bool :=
  g.any (fun i =>
    match l[i]? with
    | some a => a.ConversionFactor.isSome
    | none => false)

/-- `sumForGroup`: common-unit total of the postings at the given indices. -/
def sumForGroup (l : List Account) (g : List Nat) : Dec :=
  (g.map (fun i =>
    match l[i]? with
    | some a => contribution a
    | none => 0)).sum

/-- The `sumOtherRaw` loop: explicit postings contribute their converted
value, the rest contribute their raw balance (which coincides with
`contribution` case by case, as in the source). -/
def sumOtherRaw (l : List Account) (g : List Nat) : Dec :=
  (g.map (fun i =>
    match l[i]? with
    | some a =>
      if a.Converted.isSome ∨ a.ConversionFactor.isSome then
        match a.Converted with
        | some c => -c
        | none =>
          match a.ConversionFactor with
          | some f => a.Balance * f
          | none => 0
      else a.Balance
    | none => 0)).sum

/-- The assignment loop: store the inferred factor on every posting of the
other group that carries neither an explicit factor nor a converted amount.
`i` is the running index of the posting being examined. -/
def setFactorGo (factor : Dec) (idxs : List Nat) (i : Nat) :
    List Account → List Account
  | [] => []
  | a :: rest =>
    (if idxs.contains i ∧ a.ConversionFactor = none ∧ a.Converted = none
     then { a with ConversionFactor := some factor } else a)
      :: setFactorGo factor idxs (i + 1) rest

def setFactor (l : List Account) (idxs : List Nat) (factor : Dec) :
    List Account :=
  setFactorGo factor idxs 0 l

/-- `inferConversionFactorForTwoCurrencyTx`: mutates the transaction in
place in Go; embedded as returning the updated transaction (the function
always returns a nil error). -/
def Transaction.inferConversionFactorForTwoCurrencyTx (t : Transaction) :
    Transaction :=
  match buildCurrencyMap t.AccountChanges with
  | none => t
  | some m =>
    match m with
    | [(_, g0), (_, g1)] =>
      let hasConv0 := groupHasConv t.AccountChanges g0
      let hasConv1 := groupHasConv t.AccountChanges g1
      if hasConv0 ∧ hasConv1 then t
      else
        -- hasConv0 → base = 1, other = 0; otherwise base = 0, other = 1
        let base := if hasConv0 then g1 else g0
        let other := if hasConv0 then g0 else g1
        let sumBase := sumForGroup t.AccountChanges base
        let sOther := sumOtherRaw t.AccountChanges other
        if sOther = 0 then t
        else if sumBase + sOther = 0 then t
        else
          { t with AccountChanges :=
              setFactor t.AccountChanges other (decDiv (-sumBase) sOther) }
    | _ => t

/-- `IsBalanced` (the balancer snapshot with conversion inference): returns
the updated transaction together with the error result; mutations performed
before an error is returned persist, as with the Go pointer receiver. -/
def Transaction.IsBalanced (t : Transaction) :
    Transaction × Option BalanceError :=
  if t.AccountChanges.length < 2 then (t, some .needAtLeastTwoPostings)
  else
    if commonSum t.inferConversionFactorForTwoCurrencyTx.AccountChanges = 0
    then (t.inferConversionFactorForTwoCurrencyTx, none)
    else
      match numEmpty t.inferConversionFactorForTwoCurrencyTx.AccountChanges
        with
      | 0 => (t.inferConversionFactorForTwoCurrencyTx,
              some .noEmptyAccountForExtraBalance)
      | 1 =>
        ({ t.inferConversionFactorForTwoCurrencyTx with
            AccountChanges :=
              setBalanceAt
                t.inferConversionFactorForTwoCurrencyTx.AccountChanges
                (lastZeroIdx
                  t.inferConversionFactorForTwoCurrencyTx.AccountChanges)
                (-(commonSum
                  t.inferConversionFactorForTwoCurrencyTx.AccountChanges)) },
         none)
      | _ + 2 => (t.inferConversionFactorForTwoCurrencyTx,
                  some .moreThanOneEmptyAccountInTx)

/-- The order in which `for k, g := range currencyMap` observes the
entries of the Go map.  Go gives no guarantee; for the two-key map of the
two-currency case the loop can observe the insertion order (`order =
false`, first-seen) or its reverse (`order = true`). -/
def mapRange (order : Bool) (m : List (String × List Nat)) :
    List (String × List Nat) :=
  if order then m.reverse else m

/-- `inferConversionFactorForTwoCurrencyTx` with the map iteration order an
explicit parameter: the body of the pinned embedding, reading `curKeys` /
`groups` in the order the range loop observes them.
`inferConversionFactorForTwoCurrencyTx = inferConversionFactorForTwoCurrencyTxRange false`. -/
def Transaction.inferConversionFactorForTwoCurrencyTxRange (order : Bool)
    (t : Transaction) : Transaction :=
  match buildCurrencyMap t.AccountChanges with
  | none => t
  | some m =>
    match mapRange order m with
    | [(_, g0), (_, g1)] =>
      let hasConv0 := groupHasConv t.AccountChanges g0
      let hasConv1 := groupHasConv t.AccountChanges g1
      if hasConv0 ∧ hasConv1 then t
      else
        -- hasConv0 → base = 1, other = 0; otherwise base = 0, other = 1
        let base := if hasConv0 then g1 else g0
        let other := if hasConv0 then g0 else g1
        let sumBase := sumForGroup t.AccountChanges base
        let sOther := sumOtherRaw t.AccountChanges other
        if sOther = 0 then t
        else if sumBase + sOther = 0 then t
        else
          { t with AccountChanges :=
              setFactor t.AccountChanges other (decDiv (-sumBase) sOther) }
    | _ => t

/-- `IsBalanced` over the order-explicit inference. -/
def Transaction.IsBalancedRange (order : Bool) (t : Transaction) :
    Transaction × Option BalanceError :=
  if t.AccountChanges.length < 2 then (t, some .needAtLeastTwoPostings)
  else
    if commonSum
        (t.inferConversionFactorForTwoCurrencyTxRange order).AccountChanges
        = 0
    then (t.inferConversionFactorForTwoCurrencyTxRange order, none)
    else
      match numEmpty
          (t.inferConversionFactorForTwoCurrencyTxRange order).AccountChanges
        with
      | 0 => (t.inferConversionFactorForTwoCurrencyTxRange order,
              some .noEmptyAccountForExtraBalance)
      | 1 =>
        ({ t.inferConversionFactorForTwoCurrencyTxRange order with
            AccountChanges :=
              setBalanceAt
                (t.inferConversionFactorForTwoCurrencyTxRange
                  order).AccountChanges
                (lastZeroIdx
                  (t.inferConversionFactorForTwoCurrencyTxRange
                    order).AccountChanges)
                (-(commonSum
                  (t.inferConversionFactorForTwoCurrencyTxRange
                    order).AccountChanges)) },
         none)
      | _ + 2 => (t.inferConversionFactorForTwoCurrencyTxRange order,
                  some .moreThanOneEmptyAccountInTx)

/-! ### The posting grammar

`parsePosting` matches one regular expression (Go `regexp`, leftmost-first
submatch semantics):

`^(.+?)(?:(?:\s{2,}|\t)(?:([A-Z\$]+)\s+)?(-?\d+(?:\.\d+)?|\([0-9+\-*\/. ]+\))(?:\s*(?:@@\s*(-?\d+(?:\.\d+)?)|@\s*(-?\d+(?:\.\d+)?)))?)?\s*$`

The matcher below implements exactly this pattern over `List Char`, with the
backtracking priority order of a leftmost-first engine: the lazy `.+?` tries
the shortest name first, greedy pieces try the longest split first,
alternatives and optional groups are tried left to right / present first. -/

/-- The Perl class `\s` of Go regexp: `[\t\n\f\r ]`. -/
def isReSpace (c : Char) : Bool :=
  c = ' ' || c = '\t' || c = '\n' || c = '\x0C' || c = '\r'

/-- The class `[A-Z\$]` of the currency group. -/
def isCurChar (c : Char) : Bool := ('A' ≤ c && c ≤ 'Z') || c = '$'

/-- The class `[0-9+\-*\/. ]` of the parenthesized-amount alternative. -/
def isAmountClass (c : Char) : Bool :=
  c.isDigit || c = '+' || c = '-' || c = '*' || c = '/' || c = '.' || c = ' '

/-- Submatch result: the five capture groups of the posting pattern
(`none` = group did not participate, which Go reports as `""`). -/
structure PostingGroups where
  name : List Char
  currency : Option (List Char)
  amount : Option (List Char)
  converted : Option (List Char)
  factor : Option (List Char)
deriving DecidableEq, Repr

/-- Greedy `p{mn,}` with backtracking: the `(consumed, rest)` splits in the
order a leftmost-first engine tries them (longest first, at least `mn`). -/
def greedySplits (p : Char → Bool) (mn : Nat) (cs : List Char) :
    List (List Char × List Char) :=
  let n := (cs.takeWhile p).length
  ((List.range (n + 1)).reverse.filter (fun k => mn ≤ k)).map
    (fun k => (cs.take k, cs.drop k))

/-- Remainders only, for groups whose consumed text is not captured. -/
def greedyRems (p : Char → Bool) (mn : Nat) (cs : List Char) :
    List (List Char) :=
  (greedySplits p mn cs).map (fun pr => pr.2)

/-- `\d+` (greedy, backtracking). -/
def digitSplits (cs : List Char) : List (List Char × List Char) :=
  greedySplits Char.isDigit 1 cs

/-- `(?:\.\d+)?` — present first, then absent. -/
def fracSplits (cs : List Char) : List (List Char × List Char) :=
  (match cs with
   | '.' :: rest => (digitSplits rest).map (fun pr => ('.' :: pr.1, pr.2))
   | _ => []) ++ [([], cs)]

/-- `-?\d+(?:\.\d+)?` — the decimal-number token of the pattern. -/
def numSplits (cs : List Char) : List (List Char × List Char) :=
  let signed : List (List Char × List Char) :=
    match cs with
    | '-' :: rest => [(['-'], rest), ([], cs)]
    | _ => [([], cs)]
  signed.flatMap (fun s =>
    (digitSplits s.2).flatMap (fun d =>
      (fracSplits d.2).map (fun f => (s.1 ++ d.1 ++ f.1, f.2))))

/-- `\([0-9+\-*\/. ]+\)` — the parenthesized-expression alternative. -/
def parenSplits (cs : List Char) : List (List Char × List Char) :=
  match cs with
  | '(' :: rest =>
    (greedySplits isAmountClass 1 rest).filterMap (fun pr =>
      match pr.2 with
      | ')' :: r2 => some ('(' :: (pr.1 ++ [')']), r2)
      | _ => none)
  | _ => []

/-- The amount group: number alternative first, then parenthesized. -/
def amountSplits (cs : List Char) : List (List Char × List Char) :=
  numSplits cs ++ parenSplits cs

/-- `(?:\s*(?:@@\s*(NUM)|@\s*(NUM)))?`: candidates
`(converted, factor, rest)`, present-first, `@@` alternative before `@`. -/
def convSplits (cs : List Char) :
    List (Option (List Char) × Option (List Char) × List Char) :=
  ((greedyRems isReSpace 0 cs).flatMap (fun r1 =>
    (match r1 with
     | '@' :: '@' :: r2 =>
       (greedyRems isReSpace 0 r2).flatMap (fun r3 =>
         (numSplits r3).map (fun pr =>
           (some pr.1, (none : Option (List Char)), pr.2)))
     | _ => []) ++
    (match r1 with
     | '@' :: r2 =>
       (greedyRems isReSpace 0 r2).flatMap (fun r3 =>
         (numSplits r3).map (fun pr =>
           ((none : Option (List Char)), some pr.1, pr.2)))
     | _ => []))) ++ [(none, none, cs)]

/-- `(?:([A-Z\$]+)\s+)?` — optional currency token, present first. -/
def currencySplits (cs : List Char) :
    List (Option (List Char) × List Char) :=
  ((greedySplits isCurChar 1 cs).flatMap (fun pr =>
    (greedyRems isReSpace 1 pr.2).map (fun r2 => (some pr.1, r2)))) ++
  [(none, cs)]

/-- `(?:\s{2,}|\t)` — the separator between account name and amount. -/
def sepRems (cs : List Char) : List (List Char) :=
  greedyRems isReSpace 2 cs ++ (match cs with | '\t' :: r => [r] | _ => [])

/-- Attempt the full optional tail (separator, currency, amount, conversion)
after a given name, then `\s*$`. -/
def tailWithGroup (name : List Char) (cs : List Char) : Option PostingGroups :=
  (sepRems cs).findSome? (fun r1 =>
    (currencySplits r1).findSome? (fun cur =>
      (amountSplits cur.2).findSome? (fun amt =>
        (convSplits amt.2).findSome? (fun cv =>
          if cv.2.2.all isReSpace then
            some ⟨name, cur.1, some amt.1, cv.1, cv.2.1⟩
          else none))))

/-- Tail after the name: the optional group present first, else `\s*$`. -/
def tailMatch (name : List Char) (cs : List Char) : Option PostingGroups :=
  match tailWithGroup name cs with
  | some g => some g
  | none => if cs.all isReSpace then some ⟨name, none, none, none, none⟩ else none

/-- The lazy `.+?`: try the current (shortest-so-far) name, then extend it by
one more `.`-matched character. -/
def matchFrom (nameRev : List Char) (cs : List Char) : Option PostingGroups :=
  match tailMatch nameRev.reverse cs with
  | some g => some g
  | none =>
    match cs with
    | [] => none
    | c :: rest => if c = '\n' then none else matchFrom (c :: nameRev) rest

/-- `re.FindStringSubmatch` for the posting pattern (anchored `^...$`). -/
def postingMatch (cs : List Char) : Option PostingGroups :=
  match cs with
  | [] => none
  | c :: rest => if c = '\n' then none else matchFrom [c] rest

/-! ### String helpers mirroring the Go standard library -/

/-- `unicode.IsSpace`, restricted to ASCII. -/
def isGoSpace (c : Char) : Bool :=
  c = ' ' || c = '\t' || c = '\n' || c = '\x0B' || c = '\x0C' || c = '\r'

def goTrimSpaceList (cs : List Char) : List Char :=
  ((cs.dropWhile isGoSpace).reverse.dropWhile isGoSpace).reverse

/-- `strings.TrimSpace`. -/
def goTrimSpace (s : String) : String := String.mk (goTrimSpaceList s.toList)

/-- `strings.Cut(s, " ")`: `none` when no space occurs. -/
def cutSpaceL : List Char → Option (List Char × List Char)
  | [] => none
  | c :: rest =>
    if c = ' ' then some ([], rest)
    else (cutSpaceL rest).map (fun pr => (c :: pr.1, pr.2))

/-- `strings.Index(s, ";")`, returning the text before and the text from the
semicolon on (`none` when no semicolon occurs). -/
def splitSemicolonL : List Char → Option (List Char × List Char)
  | [] => none
  | c :: rest =>
    if c = ';' then some ([], c :: rest)
    else (splitSemicolonL rest).map (fun pr => (c :: pr.1, pr.2))

/-! ### The arithmetic evaluator

Modelled from the spec: the external dependency `compute.Evaluate`
(github.com/alfredxing/calc) is not part of the repository.  Per §4.5 it
evaluates `+ - * /` with standard precedence and parentheses over decimal
operands, failing on malformed input.  The float round-trip the spec flags
as an open question is not modelled: values are exact rationals. -/

inductive Tok where
  | num (q : ℚ)
  | plus
  | minus
  | star
  | slash
  | lpar
  | rpar
deriving DecidableEq, Repr

def digitsVal (ds : List Char) : Nat :=
  ds.foldl (fun n c => 10 * n + (c.toNat - '0'.toNat)) 0

/-- Numeric literal value: integer part plus decimal fraction. -/
def litVal (intPart fracPart : List Char) : ℚ :=
  (digitsVal intPart : ℚ) +
    (digitsVal fracPart : ℚ) / ((10 : ℚ) ^ fracPart.length)

/-- Tokenizer (fuel-driven; fuel `cs.length + 1` suffices). -/
def tokenizeF (fuel : Nat) (cs : List Char) : Option (List Tok) :=
  match fuel with
  | 0 => none
  | fuel + 1 =>
    match cs with
    | [] => some []
    | c :: rest =>
      if c = ' ' then tokenizeF fuel rest
      else if c = '+' then (tokenizeF fuel rest).map (Tok.plus :: ·)
      else if c = '-' then (tokenizeF fuel rest).map (Tok.minus :: ·)
      else if c = '*' then (tokenizeF fuel rest).map (Tok.star :: ·)
      else if c = '/' then (tokenizeF fuel rest).map (Tok.slash :: ·)
      else if c = '(' then (tokenizeF fuel rest).map (Tok.lpar :: ·)
      else if c = ')' then (tokenizeF fuel rest).map (Tok.rpar :: ·)
      else if c.isDigit then
        let ds := cs.takeWhile Char.isDigit
        let r1 := cs.dropWhile Char.isDigit
        match r1 with
        | '.' :: r2 =>
          let fs := r2.takeWhile Char.isDigit
          if fs = [] then none
          else
            (tokenizeF fuel (r2.dropWhile Char.isDigit)).map
              (Tok.num (litVal ds fs) :: ·)
        | _ => (tokenizeF fuel r1).map (Tok.num (litVal ds []) :: ·)
      else none

/-- Recursive-descent parser for the expression grammar, written as one
fuel-driven function.  `lvl` is the precedence level: 0 parses a factor
(number, unary minus, parenthesized expression), 1 a term (`*`, `/`),
2 an expression (`+`, `-`).  `acc = none` parses the leading operand of the
level; `acc = some v` is the left-associative `(op operand)*` loop of the
level with accumulated value `v`. -/
def parseStep (fuel : Nat) (lvl : Nat) (acc : Option ℚ) (ts : List Tok) :
    Option (ℚ × List Tok) :=
  match fuel with
  | 0 => none
  | fuel + 1 =>
    match acc with
    | none =>
      match lvl with
      | 0 =>
        match ts with
        | Tok.num q :: rest => some (q, rest)
        | Tok.minus :: rest =>
          (parseStep fuel 0 none rest).map (fun pr => (-pr.1, pr.2))
        | Tok.lpar :: rest =>
          match parseStep fuel 2 none rest with
          | some (v, Tok.rpar :: r2) => some (v, r2)
          | _ => none
        | _ => none
      | 1 =>
        match parseStep fuel 0 none ts with
        | none => none
        | some (v, rest) => parseStep fuel 1 (some v) rest
      | _ =>
        match parseStep fuel 1 none ts with
        | none => none
        | some (v, rest) => parseStep fuel 2 (some v) rest
    | some v =>
      match lvl, ts with
      | 1, Tok.star :: rest =>
        match parseStep fuel 0 none rest with
        | none => none
        | some (w, r2) => parseStep fuel 1 (some (v * w)) r2
      | 1, Tok.slash :: rest =>
        match parseStep fuel 0 none rest with
        | none => none
        | some (w, r2) => parseStep fuel 1 (some (v / w)) r2
      | 2, Tok.plus :: rest =>
        match parseStep fuel 1 none rest with
        | none => none
        | some (w, r2) => parseStep fuel 2 (some (v + w)) r2
      | 2, Tok.minus :: rest =>
        match parseStep fuel 1 none rest with
        | none => none
        | some (w, r2) => parseStep fuel 2 (some (v - w)) r2
      | _, _ => some (v, ts)

/-- `compute.Evaluate` (modelled from the spec, see above). -/
def evaluate (s : String) : Option ℚ :=
  match tokenizeF (s.length + 1) s.toList with
  | none => none
  | some ts =>
    match parseStep (8 * (ts.length + 1)) 2 none ts with
    | some (v, []) => some v
    | _ => none

/-- Modelled from the spec: `decimal.NewFromString` of the external
shopspring library, restricted to the token shape `-?\d+(\.\d+)?` that the
posting pattern can capture. -/
def decFromString (cs : List Char) : Option ℚ :=
  let signed : Option (Bool × List Char) :=
    match cs with
    | '-' :: rest => some (true, rest)
    | _ => some (false, cs)
  match signed with
  | none => none
  | some (neg, r1) =>
    let ds := r1.takeWhile Char.isDigit
    let r2 := r1.dropWhile Char.isDigit
    if ds = [] then none
    else
      let intv : ℚ := (digitsVal ds : ℚ)
      let val : Option ℚ :=
        match r2 with
        | [] => some intv
        | '.' :: r3 =>
          let fs := r3.takeWhile Char.isDigit
          if fs = [] ∨ (r3.dropWhile Char.isDigit) ≠ [] then none
          else some (intv + (digitsVal fs : ℚ) / ((10 : ℚ) ^ fs.length))
        | _ => none
      val.map (fun v => if neg then -v else v)

/-! ### `parsePosting` -/

/-- The error results `parsePosting` can produce. -/
inductive PostErr where
  | invalidPosting (line : String)
  | evalError (expr : String)
  | decimalError (tok : String)
deriving DecidableEq, Repr

/-- The zero `Account{}` value the Go receiver starts from. -/
def emptyAccount : Account :=
  { Name := "", Currency := "", Balance := 0, Comment := "",
    Converted := none, ConversionFactor := none }

/-- The `@ FACTOR` handling at the end of `parsePosting`. -/
def parsePostingFactor (a : Account) (m : PostingGroups) :
    Account × Option PostErr :=
  match m.factor with
  | some fc =>
    match decFromString fc with
    | none => (a, some (.decimalError (String.mk fc)))
    | some d => ({ a with ConversionFactor := some d }, none)
  | none => (a, none)

/-- The `@@ CONVERTED` handling of `parsePosting`. -/
def parsePostingConv (a : Account) (m : PostingGroups) :
    Account × Option PostErr :=
  match m.converted with
  | some cv =>
    match decFromString cv with
    | none => (a, some (.decimalError (String.mk cv)))
    | some d => parsePostingFactor { a with Converted := some d } m
  | none => parsePostingFactor a m

/-- `(a *Account) parsePosting(trimmedLine, comment)`: the receiver is
mutated field by field before an error can be returned, so the embedding
returns the partially-filled account together with the error. -/
def parsePosting (line comment : String) : Account × Option PostErr :=
  let cs := goTrimSpaceList line.toList
  match postingMatch cs with
  | none => (emptyAccount, some (.invalidPosting line))
  | some m =>
    let a0 : Account :=
      { Name := String.mk m.name,
        Currency := String.mk ((m.currency).getD []),
        Balance := 0, Comment := comment,
        Converted := none, ConversionFactor := none }
    match m.amount with
    | some amt =>
      match evaluate (String.mk amt) with
      | none => (a0, some (.evalError (String.mk amt)))
      | some v => parsePostingConv { a0 with Balance := v } m
    | none => parsePostingConv a0 m

/-! ### Blocks and the block-oriented parser

The line scanner (`linescanner`) is not part of the sources; per §4.1 of the
spec it delivers the physical lines of the stream one by one, incrementing a
1-based line counter on every line consumed and exposing the source name.
The scan state is embedded as the list of remaining lines plus the current
line counter. -/

/-- `block` of the block-oriented parser. -/
structure Block where
  transDate : Date
  payeeString : String
  payeeComment : String
  comments : List String
  lines : List String
  filename : String
  lineNum : Nat
deriving DecidableEq, Repr

/-- The posting loop of `block.parseTransaction`: accumulates postings and
block comments; a raw empty line breaks the loop; errors from `parsePosting`
are not inspected (the source discards the return value). -/
def blockLoop : List String → List Account → List String →
    List Account × List String
  | [], accPost, accComm => (accPost, accComm)
  | line :: rest, accPost, accComm =>
    match splitSemicolonL line.toList with
    | some (before, fromSemi) =>
      let currentComment := String.mk fromSemi
      let trimmed := goTrimSpace (String.mk before)
      if trimmed = "" then blockLoop rest accPost (accComm ++ [currentComment])
      else
        let pr := parsePosting trimmed currentComment
        blockLoop rest (accPost ++ [pr.1]) accComm
    | none =>
      if line = "" then (accPost, accComm)
      else
        let pr := parsePosting line ""
        blockLoop rest (accPost ++ [pr.1]) accComm

/-- The tail of `block.parseTransaction`: `if err = trans.IsBalanced(); err
!= nil { return nil, err }` and the final `return trans, nil`. -/
def postIsBalanced (p : Transaction × Option BalanceError) :
    Option Transaction × Option String :=
  match p with
  | (_, some e) => (none, some e.message)
  | (t2, none) => (some t2, none)

/-- `block.parseTransaction`: assembles the transaction from the block's
lines and runs `IsBalanced`; on a balance error no transaction is returned,
otherwise the (possibly adjusted) transaction is. -/
def Block.parseTransaction (b : Block) : Option Transaction × Option String :=
  let pr := blockLoop b.lines [] b.comments
  let trans : Transaction :=
    { Date := b.transDate, Payee := b.payeeString,
      PayeeComment := b.payeeComment, AccountChanges := pr.1,
      Comments := pr.2 }
  postIsBalanced trans.IsBalanced

/-- One result delivered to the `parseLedger` callback: an error or a batch
of transactions. -/
inductive LResult where
  | err (s : String)
  | txs (ts : List Transaction)
deriving DecidableEq, Repr

/-- The loop of `parseBlock`: lines consumed for a block (each line read
increments the scanner's line counter; an empty line is appended and then
breaks).  Returns the block's lines and the number of lines consumed. -/
def collectBlockL : List String → List String × Nat
  | [] => ([], 0)
  | l :: rest =>
    if l = "" then ([l], 1)
    else
      let pr := collectBlockL rest
      (l :: pr.1, pr.2 + 1)

/-- `skipAccount`: number of lines consumed (reads until an empty line has
been consumed, or input ends). -/
def skipCount : List String → Nat
  | [] => 0
  | l :: rest => if l = "" then 1 else skipCount rest + 1

/-- Splitting a date token at `/` or `-` separators. -/
def splitSepGo (cur : List Char) : List Char → List (List Char)
  | [] => [cur.reverse]
  | c :: rest =>
    if c = '/' || c = '-' then cur.reverse :: splitSepGo [] rest
    else splitSepGo (c :: cur) rest

/-- Modelled from the spec: the external date library. §4.3/§6 — the token
must parse as a calendar date in a small set of common layouts with `/` or
`-` separators; the layout cache is a pure optimization and is omitted. -/
def parseDateModel (s : String) : Option Date :=
  match splitSepGo [] s.toList with
  | [y, m, d] =>
    if y ≠ [] ∧ m ≠ [] ∧ d ≠ [] ∧ y.all Char.isDigit ∧
        m.all Char.isDigit ∧ d.all Char.isDigit then
      if 1 ≤ digitsVal m ∧ digitsVal m ≤ 12 ∧ 1 ≤ digitsVal d ∧
          digitsVal d ≤ 31 then
        some ⟨digitsVal y, digitsVal m, digitsVal d⟩
      else none
    else none
  | _ => none

/-- The deferred loop over assembled blocks (`for _, block := range blocks`):
emits one formatted error per failing block, collects the transactions of
the successful ones, and ends with the final `callback(tlist, nil)`. -/
def blockPhaseGo (acc : List Transaction) : List Block → List LResult
  | [] => [LResult.txs acc]
  | b :: bs =>
    match b.parseTransaction with
    | (_, some e) =>
      LResult.err (b.filename ++ ":" ++ toString b.lineNum ++
        ": unable to parse transaction: " ++ e) :: blockPhaseGo acc bs
    | (some t, none) => blockPhaseGo (acc ++ [t]) bs
    | (none, none) => blockPhaseGo acc bs

/-- The per-line preprocessing of the main loop: trim the line, split off an
inline comment, trim again.  Returns `(trimmedLine, currentComment)`. -/
def stripLine (line : String) : String × String :=
  let t0 := goTrimSpace line
  match splitSemicolonL t0.toList with
  | some (before, fromSemi) =>
    (goTrimSpace (String.mk before), String.mk fromSemi)
  | none => (t0, "")

/-- Whether a line reaches the `include` branch of the main loop. -/
def lineIsInclude (line : String) : Bool :=
  if (stripLine line).1 = "" then false
  else
    match cutSpaceL (stripLine line).1.toList with
    | some (before, _) =>
      decide (String.mk before ≠ "account" ∧ String.mk before = "include")
    | none => false

/-- The main scan loop of `parseLedger`, embedded with the always-continue
callback (the instantiation used by `ParseLedgerAsync`): every callback
invocation becomes one `LResult`.  `n` is the scanner's line counter,
`comments` and `blocks` the accumulators of the loop.  The recursion is
fuel-driven; every iteration consumes at least one line, so
`lines.length + 1` fuel suffices and the zero-fuel case is unreachable from
`parseLedgerModel`. -/
def ledgerScan (fuel : Nat) (filename : String) (n : Nat)
    (lines : List String) (comments : List String) (blocks : List Block) :
    List LResult :=
  match fuel with
  | 0 => []
  | fuel + 1 =>
    match lines with
    | [] => blockPhaseGo [] blocks
    | line :: rest =>
      if (stripLine line).1 = "" then
        ledgerScan fuel filename (n + 1) rest
          (if (stripLine line).2 ≠ "" then comments ++ [(stripLine line).2]
           else comments) blocks
      else
        match cutSpaceL (stripLine line).1.toList with
        | none =>
          LResult.err (filename ++ ":" ++ toString (n + 1) ++
              ": unable to parse transaction: " ++
              ("unable to parse payee line: " ++ (stripLine line).1))
            :: ledgerScan fuel filename (n + 1) rest
                (if (stripLine line).2 ≠ "" then
                  comments ++ [(stripLine line).2]
                 else comments) blocks
        | some (before, after) =>
          if String.mk before = "account" then
            ledgerScan fuel filename (n + 1 + skipCount rest)
              (rest.drop (skipCount rest)) comments blocks
          else if String.mk before = "include" then
            -- Modelled from the spec: glob resolution needs a filesystem;
            -- with no matched path the source emits the include error and
            -- stops (so the deferred block phase never runs).
            [LResult.err (filename ++ ":" ++ toString (n + 1) ++
              ": unable to include file(" ++ String.mk after ++
              "): not found")]
          else
            match parseDateModel (String.mk before) with
            | none =>
              LResult.err (filename ++ ":" ++ toString (n + 1) ++
                  ": unable to parse transaction: " ++
                  ("unable to parse date(" ++ String.mk before ++
                    "): invalid date"))
                :: ledgerScan fuel filename (n + 1) rest comments blocks
            | some d =>
              ledgerScan fuel filename (n + 1 + (collectBlockL rest).2)
                (rest.drop (collectBlockL rest).2) []
                (blocks ++
                  [{ transDate := d, payeeString := String.mk after,
                     payeeComment := (stripLine line).2, comments := comments,
                     lines := (collectBlockL rest).1, filename := filename,
                     lineNum := n + 1 + (collectBlockL rest).2 }])

/-- `parseLedger(filename, reader, callback)` over the stream's physical
lines, as the sequence of callback invocations. -/
def parseLedgerModel (filename : String) (lines : List String) :
    List LResult :=
  ledgerScan (lines.length + 1) filename 0 lines [] []

/-! ### The batch entry points of `parse.go`

`ParseLedgerFile` / `ParseLedger` of `parse.go` range over the result
channel; `result` carries a transaction pointer and an error. -/

/-- One value received from the `results` channel. -/
structure GoResult where
  transaction : Option Transaction
  error : Option String
deriving DecidableEq, Repr

/-- The collection loop shared by `ParseLedgerFile` and `ParseLedger`:
on a result carrying an error the source executes `return nil, err`, where
`err` is the function's named return value, which no statement ever
assigns — so the pair `(nil, nil)` is returned.  The embedding reproduces
this faithfully. -/
def parseLedgerFileLoop (results : List GoResult)
    (acc : List (Option Transaction)) :
    Option (List (Option Transaction)) × Option String :=
  match results with
  | [] => (some acc, none)
  | r :: rest =>
    match r.error with
    | some _ => (none, none)
    | none => parseLedgerFileLoop rest (acc ++ [r.transaction])

/-- The value `ParseLedger` returns for a given stream of channel results. -/
def ParseLedgerCollect (results : List GoResult) :
    Option (List (Option Transaction)) × Option String :=
  parseLedgerFileLoop results []

/-- Recognizer used to state that posting parse failures never surface. -/
def PostErr.isInvalid : PostErr → Bool
  | .invalidPosting _ => true
  | _ => false

/-! ### Concrete instances used by the theorems -/

/-- A posting with no comment and no conversion information. -/
def demoAcc (n cur : String) (b : Dec) : Account :=
  { Name := n, Currency := cur, Balance := b, Comment := "",
    Converted := none, ConversionFactor := none }

/-- A transaction around a posting list. -/
def demoTx (l : List Account) : Transaction :=
  { Date := ⟨1970, 1, 1⟩, Payee := "Payee", PayeeComment := "",
    AccountChanges := l, Comments := [] }

/-- `[A: -10 USD, B: 5 EUR]`, no explicit rate. -/
def c4tx : Transaction := demoTx [demoAcc "A" "USD" (-10), demoAcc "B" "EUR" 5]

/-- `[A: -10, B: empty]`. -/
def c2tx : Transaction := demoTx [demoAcc "A" "" (-10), demoAcc "B" "" 0]

/-- Two non-empty currency groups plus one empty-currency empty posting. -/
def c5tx : Transaction :=
  demoTx [demoAcc "A" "CZK" (-2000), demoAcc "B" "EUR" 1000, demoAcc "C" "" 0]

/-- A single-posting transaction. -/
def c3tx : Transaction := demoTx [demoAcc "A" "" 5]

/-- A block whose first posting line carries `0 @@ 5`: a zero-balance posting
with an explicit converted amount. -/
def c1block : Block :=
  { transDate := ⟨1970, 1, 1⟩, payeeString := "Payee", payeeComment := "",
    comments := [], lines := ["\tA  0 @@ 5", "\tB  3"], filename := "",
    lineNum := 3 }

/-- A block whose first posting line is a malformed parenthesized
expression (matches the amount pattern but fails to evaluate). -/
def c6block : Block :=
  { transDate := ⟨1970, 1, 1⟩, payeeString := "Payee", payeeComment := "",
    comments := [], lines := ["\tExpense  (1 + )", "\tAssets  5"],
    filename := "", lineNum := 3 }

/-- The `unbalanced error` test stream: one block starting at line 1 whose
balance error the source reports at line 3. -/
def demoLines : List String :=
  ["1970/01/01 Payee", "\tExpense/test  (123 * 3)", "\tAssets      123"]

/-! ## Helper lemmas -/

attribute [local semireducible] Rat.add Rat.mul Rat.inv Rat.sub

theorem setBalanceAt_getElem? (l : List Account) (k : Nat) (v : Dec)
    (j : Nat) :
    (setBalanceAt l k v)[j]? =
      (l[j]?).map (fun a => if j = k then { a with Balance := v } else a) := by
  induction l generalizing k j with
  | nil => simp [setBalanceAt]
  | cons a rest ih =>
    cases k with
    | zero =>
      cases j with
      | zero => simp [setBalanceAt]
      | succ j => simp [setBalanceAt]
    | succ k =>
      cases j with
      | zero => simp [setBalanceAt]
      | succ j => simpa [setBalanceAt] using ih k j

theorem setBalanceAt_length (l : List Account) (k : Nat) (v : Dec) :
    (setBalanceAt l k v).length = l.length := by
  induction l generalizing k with
  | nil => simp [setBalanceAt]
  | cons a rest ih =>
    cases k with
    | zero => simp [setBalanceAt]
    | succ k => simp [setBalanceAt, ih]

theorem commonSum_cons (a : Account) (l : List Account) :
    commonSum (a :: l) = contribution a + commonSum l := by
  simp [commonSum]

theorem commonSum_setBalanceAt (l : List Account) (k : Nat) (v : Dec)
    (a : Account) (hk : l[k]? = some a) :
    commonSum (setBalanceAt l k v) =
      commonSum l - contribution a + contribution { a with Balance := v } := by
  induction l generalizing k with
  | nil => simp at hk
  | cons b rest ih =>
    cases k with
    | zero =>
      simp only [List.getElem?_cons_zero, Option.some.injEq] at hk
      subst hk
      simp [setBalanceAt, commonSum_cons]
      ring
    | succ k =>
      simp only [List.getElem?_cons_succ] at hk
      simp [setBalanceAt, commonSum_cons, ih k hk]
      ring

theorem lastZeroIdxGo_no_zero (l : List Account) (i cur : Nat)
    (h : ∀ a ∈ l, a.Balance ≠ 0) : lastZeroIdxGo i cur l = cur := by
  induction l generalizing i cur with
  | nil => rfl
  | cons a rest ih =>
    have ha : a.Balance ≠ 0 := h a (by simp)
    simp only [lastZeroIdxGo, if_neg ha]
    exact ih (i + 1) cur (fun b hb => h b (by simp [hb]))

theorem lastZeroIdxGo_unique (l : List Account) (i cur : Nat)
    (h : numEmpty l = 1) :
    ∃ j a, l[j]? = some a ∧ a.Balance = 0 ∧
      lastZeroIdxGo i cur l = i + j ∧
      ∀ j2 a2, l[j2]? = some a2 → a2.Balance = 0 → j2 = j := by
  induction l generalizing i cur with
  | nil => simp [numEmpty] at h
  | cons a rest ih =>
    rw [numEmpty, List.countP_cons] at h
    by_cases ha : a.Balance = 0
    · have hrest : numEmpty rest = 0 := by
        simp [ha] at h
        simpa [numEmpty] using h
      have hnone : ∀ b ∈ rest, b.Balance ≠ 0 := by
        intro b hb
        have := List.countP_eq_zero.mp hrest b hb
        simpa using this
      refine ⟨0, a, by simp, ha, ?_, ?_⟩
      · simp only [lastZeroIdxGo, if_pos ha]
        rw [lastZeroIdxGo_no_zero rest (i + 1) i hnone]
        omega
      · intro j2 a2 hj2 hz2
        cases j2 with
        | zero => rfl
        | succ m =>
          simp only [List.getElem?_cons_succ] at hj2
          exact absurd hz2 (hnone a2 (List.getElem?_mem hj2))
    · have hrest : numEmpty rest = 1 := by
        simp [ha] at h
        simpa [numEmpty] using h
      obtain ⟨j, b, hget, hzb, hgo, huniq⟩ := ih (i + 1) cur hrest
      refine ⟨j + 1, b, by simpa using hget, hzb, ?_, ?_⟩
      · simp only [lastZeroIdxGo, if_neg ha]
        rw [hgo]
        omega
      · intro j2 a2 hj2 hz2
        cases j2 with
        | zero =>
          simp only [List.getElem?_cons_zero, Option.some.injEq] at hj2
          subst hj2
          exact absurd hz2 ha
        | succ m =>
          simp only [List.getElem?_cons_succ] at hj2
          have := huniq m a2 hj2 hz2
          omega

theorem setFactorGo_getElem? (l : List Account) (factor : Dec)
    (idxs : List Nat) (i j : Nat) :
    (setFactorGo factor idxs i l)[j]? =
      (l[j]?).map (fun a =>
        if idxs.contains (i + j) ∧ a.ConversionFactor = none ∧
            a.Converted = none
        then { a with ConversionFactor := some factor } else a) := by
  induction l generalizing i j with
  | nil => simp [setFactorGo]
  | cons a rest ih =>
    cases j with
    | zero => simp [setFactorGo]
    | succ j =>
      have := ih (i + 1) j
      simp only [setFactorGo, List.getElem?_cons_succ]
      rw [this]
      have harith : i + 1 + j = i + (j + 1) := by omega
      rw [harith]

theorem setFactorGo_getElem?_some (l : List Account) (factor : Dec)
    (idxs : List Nat) (i j : Nat) (a : Account) (ha : l[j]? = some a) :
    (setFactorGo factor idxs i l)[j]? =
      some (if idxs.contains (i + j) ∧ a.ConversionFactor = none ∧
            a.Converted = none
        then { a with ConversionFactor := some factor } else a) := by
  rw [setFactorGo_getElem?, ha]
  rfl

theorem setFactorGo_length (l : List Account) (factor : Dec)
    (idxs : List Nat) (i : Nat) :
    (setFactorGo factor idxs i l).length = l.length := by
  induction l generalizing i with
  | nil => rfl
  | cons a rest ih => simp [setFactorGo, ih]

/-- Invariant of the currency map: keys are non-empty and every index of a
group points at a posting carrying that key as its currency. -/
def MapInv (full : List Account) (m : List (String × List Nat)) : Prop :=
  ∀ k g, (k, g) ∈ m → k ≠ "" ∧
    ∀ j ∈ g, ∃ a, full[j]? = some a ∧ a.Currency = k

theorem addToGroup_inv (full : List Account) (m : List (String × List Nat))
    (key : String) (i : Nat) (hm : MapInv full m) (hkey : key ≠ "")
    (ha : ∃ a, full[i]? = some a ∧ a.Currency = key) :
    MapInv full (addToGroup m key i) := by
  induction m with
  | nil =>
    intro k g hmem
    simp only [addToGroup, List.mem_singleton] at hmem
    injection hmem with h1 h2
    subst h1
    subst h2
    refine ⟨hkey, ?_⟩
    intro j hj
    rw [List.mem_singleton] at hj
    subst hj
    exact ha
  | cons p rest ih =>
    obtain ⟨k0, g0⟩ := p
    intro k g hmem
    simp only [addToGroup] at hmem
    by_cases he : k0 = key
    · rw [if_pos he] at hmem
      rcases List.mem_cons.mp hmem with heq | hmem2
      · injection heq with h1 h2
        subst h1
        subst h2
        have h0 := hm k g0 (List.mem_cons_self _ _)
        refine ⟨h0.1, ?_⟩
        intro j hj
        rcases List.mem_append.mp hj with hj | hj
        · exact h0.2 j hj
        · rw [List.mem_singleton] at hj
          subst hj
          obtain ⟨a, hga, hca⟩ := ha
          exact ⟨a, hga, by rw [he]; exact hca⟩
      · exact hm k g (List.mem_cons_of_mem _ hmem2)
    · rw [if_neg he] at hmem
      rcases List.mem_cons.mp hmem with heq | hmem2
      · exact hm k g (by rw [heq]; exact List.mem_cons_self _ _)
      · exact ih (fun k2 g2 h2 => hm k2 g2 (List.mem_cons_of_mem _ h2))
          k g hmem2

theorem buildCurrencyMapGo_inv (rem : List Account) (full : List Account)
    (pre : Nat) (m m2 : List (String × List Nat))
    (hrel : ∀ j, rem[j]? = full[pre + j]?)
    (hgo : buildCurrencyMapGo pre rem m = some m2) (hm : MapInv full m) :
    MapInv full m2 := by
  induction rem generalizing pre m with
  | nil =>
    simp [buildCurrencyMapGo] at hgo
    subst hgo
    exact hm
  | cons a rest ih =>
    rw [buildCurrencyMapGo] at hgo
    by_cases hcur : a.Currency = ""
    · simp [hcur] at hgo
    · rw [if_neg hcur] at hgo
      refine ih (pre + 1) (addToGroup m a.Currency pre) ?_ hgo ?_
      · intro j
        have := hrel (j + 1)
        simpa [Nat.add_assoc, Nat.add_comm 1 j] using this
      · refine addToGroup_inv full m a.Currency pre hm hcur ⟨a, ?_, rfl⟩
        have := hrel 0
        simpa using this.symm

theorem buildCurrencyMap_inv (l : List Account)
    (m2 : List (String × List Nat)) (h : buildCurrencyMap l = some m2) :
    MapInv l m2 := by
  refine buildCurrencyMapGo_inv l l 0 [] m2 (fun j => by simp) h ?_
  intro k g hmem
  simp at hmem

theorem buildCurrencyMapGo_none (rem : List Account) (i : Nat)
    (m : List (String × List Nat)) (h : ∃ a ∈ rem, a.Currency = "") :
    buildCurrencyMapGo i rem m = none := by
  induction rem generalizing i m with
  | nil => simp at h
  | cons a rest ih =>
    rw [buildCurrencyMapGo]
    by_cases hcur : a.Currency = ""
    · simp [hcur]
    · rw [if_neg hcur]
      obtain ⟨b, hb, hbc⟩ := h
      rcases List.mem_cons.mp hb with rfl | hb
      · exact absurd hbc hcur
      · exact ih (i + 1) _ ⟨b, hb, hbc⟩

/-- The shape of what inference can do to a transaction: either it leaves it
unchanged, or it stores one factor on the postings of an index set all of
whose members carry a non-empty currency. -/
theorem infer_shape (t : Transaction) :
    t.inferConversionFactorForTwoCurrencyTx = t ∨
    ∃ idxs factor,
      t.inferConversionFactorForTwoCurrencyTx =
        { t with AccountChanges := setFactor t.AccountChanges idxs factor } ∧
      ∀ j ∈ idxs, ∃ a, t.AccountChanges[j]? = some a ∧ a.Currency ≠ "" := by
  rw [Transaction.inferConversionFactorForTwoCurrencyTx]
  cases hbc : buildCurrencyMap t.AccountChanges with
  | none => exact Or.inl rfl
  | some m =>
    have hinv := buildCurrencyMap_inv t.AccountChanges m hbc
    match m, hinv with
    | [], _ => exact Or.inl rfl
    | [(k0, g0)], _ => exact Or.inl rfl
    | [(k0, g0), (k1, g1)], hinv =>
      simp only []
      by_cases hc : groupHasConv t.AccountChanges g0 ∧
          groupHasConv t.AccountChanges g1
      · rw [if_pos hc]
        exact Or.inl rfl
      · rw [if_neg hc]
        have hmem0 : ((k0, g0) : String × List Nat) ∈
            [(k0, g0), (k1, g1)] := by simp
        have hmem1 : ((k1, g1) : String × List Nat) ∈
            [(k0, g0), (k1, g1)] := by simp
        have hg0 := hinv k0 g0 hmem0
        have hg1 := hinv k1 g1 hmem1
        set other := if groupHasConv t.AccountChanges g0 then g0 else g1
          with hother
        have hoth : ∀ j ∈ other, ∃ a, t.AccountChanges[j]? = some a ∧
            a.Currency ≠ "" := by
          intro j hj
          rw [hother] at hj
          by_cases h0 : groupHasConv t.AccountChanges g0 = true
          · rw [if_pos h0] at hj
            obtain ⟨a, hga, hca⟩ := hg0.2 j hj
            exact ⟨a, hga, by rw [hca]; exact hg0.1⟩
          · rw [if_neg h0] at hj
            obtain ⟨a, hga, hca⟩ := hg1.2 j hj
            exact ⟨a, hga, by rw [hca]; exact hg1.1⟩
        by_cases hsz : sumOtherRaw t.AccountChanges other = 0
        · rw [if_pos hsz]
          exact Or.inl rfl
        · rw [if_neg hsz]
          by_cases hsb : sumForGroup t.AccountChanges
              (if groupHasConv t.AccountChanges g0 then g1 else g0) +
              sumOtherRaw t.AccountChanges other = 0
          · rw [if_pos hsb]
            exact Or.inl rfl
          · rw [if_neg hsb]
            exact Or.inr ⟨other, _, rfl, hoth⟩
    | (p0 :: p1 :: p2 :: ps), _ => exact Or.inl rfl

/-- Per-index effect of inference: the posting keeps its name, currency,
comment, converted amount and balance; the conversion factor only changes
on postings that carried neither conversion field and have a non-empty
currency. -/
theorem infer_getElem?_rel (t : Transaction) (j : Nat) (a : Account)
    (ha : t.AccountChanges[j]? = some a) :
    ∃ a1, t.inferConversionFactorForTwoCurrencyTx.AccountChanges[j]? =
        some a1 ∧
      a1.Name = a.Name ∧ a1.Currency = a.Currency ∧ a1.Comment = a.Comment ∧
      a1.Converted = a.Converted ∧ a1.Balance = a.Balance ∧
      (a1.ConversionFactor ≠ a.ConversionFactor →
        a.ConversionFactor = none ∧ a.Converted = none ∧ a.Currency ≠ "") := by
  rcases infer_shape t with heq | ⟨idxs, factor, heq, hcur⟩
  · refine ⟨a, by rw [heq]; exact ha, rfl, rfl, rfl, rfl, rfl, ?_⟩
    intro h
    exact absurd rfl h
  · rw [heq]
    simp only [setFactor]
    rw [setFactorGo_getElem?_some t.AccountChanges factor idxs 0 j a ha]
    by_cases hc : idxs.contains (0 + j) = true ∧ a.ConversionFactor = none ∧
        a.Converted = none
    · rw [if_pos hc]
      refine ⟨{ a with ConversionFactor := some factor }, rfl, rfl, rfl, rfl,
        rfl, rfl, ?_⟩
      intro _
      refine ⟨hc.2.1, hc.2.2, ?_⟩
      have hj : j ∈ idxs := by
        have hj0 : (0 + j) ∈ idxs := List.mem_of_elem_eq_true hc.1
        simpa using hj0
      obtain ⟨b, hgb, hbc⟩ := hcur j hj
      rw [ha] at hgb
      injection hgb with hb
      rw [← hb] at hbc
      exact hbc
    · rw [if_neg hc]
      refine ⟨a, rfl, rfl, rfl, rfl, rfl, rfl, ?_⟩
      intro h
      exact absurd rfl h

/-- Inference does not touch the transaction-level fields. -/
theorem infer_fields (t : Transaction) :
    t.inferConversionFactorForTwoCurrencyTx.Date = t.Date ∧
    t.inferConversionFactorForTwoCurrencyTx.Payee = t.Payee ∧
    t.inferConversionFactorForTwoCurrencyTx.PayeeComment = t.PayeeComment ∧
    t.inferConversionFactorForTwoCurrencyTx.Comments = t.Comments ∧
    t.inferConversionFactorForTwoCurrencyTx.AccountChanges.length =
      t.AccountChanges.length := by
  rcases infer_shape t with heq | ⟨idxs, factor, heq, _⟩
  · rw [heq]
    exact ⟨rfl, rfl, rfl, rfl, rfl⟩
  · rw [heq]
    refine ⟨rfl, rfl, rfl, rfl, ?_⟩
    simp only [setFactor]
    exact setFactorGo_length t.AccountChanges factor idxs 0

/-- Case analysis of `IsBalanced`, covering every path of the source. -/
theorem IsBalanced_cases (t : Transaction) :
    (t.AccountChanges.length < 2 ∧
      t.IsBalanced = (t, some BalanceError.needAtLeastTwoPostings)) ∨
    (2 ≤ t.AccountChanges.length ∧
      ((commonSum t.inferConversionFactorForTwoCurrencyTx.AccountChanges = 0 ∧
        t.IsBalanced = (t.inferConversionFactorForTwoCurrencyTx, none)) ∨
       (commonSum t.inferConversionFactorForTwoCurrencyTx.AccountChanges ≠ 0 ∧
        numEmpty t.inferConversionFactorForTwoCurrencyTx.AccountChanges = 0 ∧
        t.IsBalanced = (t.inferConversionFactorForTwoCurrencyTx,
          some BalanceError.noEmptyAccountForExtraBalance)) ∨
       (commonSum t.inferConversionFactorForTwoCurrencyTx.AccountChanges ≠ 0 ∧
        numEmpty t.inferConversionFactorForTwoCurrencyTx.AccountChanges = 1 ∧
        t.IsBalanced = ({ t.inferConversionFactorForTwoCurrencyTx with
            AccountChanges :=
              setBalanceAt
                t.inferConversionFactorForTwoCurrencyTx.AccountChanges
                (lastZeroIdx
                  t.inferConversionFactorForTwoCurrencyTx.AccountChanges)
                (-(commonSum
                  t.inferConversionFactorForTwoCurrencyTx.AccountChanges)) },
          none)) ∨
       (commonSum t.inferConversionFactorForTwoCurrencyTx.AccountChanges ≠ 0 ∧
        2 ≤ numEmpty t.inferConversionFactorForTwoCurrencyTx.AccountChanges ∧
        t.IsBalanced = (t.inferConversionFactorForTwoCurrencyTx,
          some BalanceError.moreThanOneEmptyAccountInTx)))) := by
  by_cases hlen : t.AccountChanges.length < 2
  · exact Or.inl ⟨hlen, by rw [Transaction.IsBalanced, if_pos hlen]⟩
  · refine Or.inr ⟨by omega, ?_⟩
    by_cases hbal :
        commonSum t.inferConversionFactorForTwoCurrencyTx.AccountChanges = 0
    · exact Or.inl ⟨hbal,
        by rw [Transaction.IsBalanced, if_neg hlen, if_pos hbal]⟩
    · cases he :
          numEmpty t.inferConversionFactorForTwoCurrencyTx.AccountChanges
        with
      | zero =>
        refine Or.inr (Or.inl ⟨hbal, rfl, ?_⟩)
        rw [Transaction.IsBalanced, if_neg hlen, if_neg hbal, he]
      | succ n =>
        cases n with
        | zero =>
          refine Or.inr (Or.inr (Or.inl ⟨hbal, rfl, ?_⟩))
          rw [Transaction.IsBalanced, if_neg hlen, if_neg hbal, he]
        | succ m =>
          refine Or.inr (Or.inr (Or.inr ⟨hbal, by omega, ?_⟩))
          rw [Transaction.IsBalanced, if_neg hlen, if_neg hbal, he]

theorem parseLedgerFileLoop_err_none (results : List GoResult)
    (acc : List (Option Transaction)) :
    (parseLedgerFileLoop results acc).2 = none := by
  induction results generalizing acc with
  | nil => rfl
  | cons r rest ih =>
    rw [parseLedgerFileLoop]
    cases r.error with
    | none => exact ih (acc ++ [r.transaction])
    | some e => rfl

/-! ## Claim theorems -/

/-- C1 (counterexample): a block whose first posting line is `A  0 @@ 5` — a
zero-balance posting with an explicit converted amount — is accepted by the
parser (`IsBalanced` returned nil and a `Transaction` is produced), yet the
common-unit sum of the returned postings is `-2`, not zero.  The balancer
wrote the missing balance into the `@@`-carrying posting, whose common-unit
contribution ignores its `Balance`. -/
theorem zero_sum_counterexample :
    c1block.parseTransaction.2 = none ∧
    (c1block.parseTransaction.1.map
      (fun t => commonSum t.AccountChanges)) = some (-2) ∧
    ((-2 : Dec) = 0 → False) := by
  refine ⟨by decide, by decide, by decide⟩

/-- C1 (amended): for every transaction accepted by `IsBalanced` (nil
error), the common-unit sum of the resulting postings is exactly zero,
provided every posting that still has a zero balance after conversion-factor
inference carries neither an explicit converted amount nor a conversion
factor. -/
theorem zero_sum_amended (t : Transaction)
    (hz : ∀ a ∈ t.inferConversionFactorForTwoCurrencyTx.AccountChanges,
      a.Balance = 0 → a.Converted = none ∧ a.ConversionFactor = none)
    (hok : t.IsBalanced.2 = none) :
    commonSum t.IsBalanced.1.AccountChanges = 0 := by
  rcases IsBalanced_cases t with ⟨hlen, heq⟩ |
    ⟨hlen, ⟨hbal, heq⟩ | ⟨hbal, hne, heq⟩ | ⟨hbal, hne, heq⟩ |
      ⟨hbal, hne, heq⟩⟩
  · rw [heq] at hok
    simp at hok
  · rw [heq]
    exact hbal
  · rw [heq] at hok
    simp at hok
  · rw [heq]
    obtain ⟨j, a, hget, hza, hgo, _⟩ :=
      lastZeroIdxGo_unique
        t.inferConversionFactorForTwoCurrencyTx.AccountChanges 0 0 hne
    have hlast : lastZeroIdx
        t.inferConversionFactorForTwoCurrencyTx.AccountChanges = j := by
      rw [lastZeroIdx, hgo]
      omega
    rw [hlast]
    rw [commonSum_setBalanceAt _ j _ a hget]
    have hcv := hz a (List.getElem?_mem hget) hza
    have hca : contribution a = 0 := by
      rw [contribution, hcv.1, hcv.2, hza]
    have hcb : contribution { a with Balance :=
        -(commonSum t.inferConversionFactorForTwoCurrencyTx.AccountChanges) } =
        -(commonSum t.inferConversionFactorForTwoCurrencyTx.AccountChanges)
        := by
      rw [contribution]
      simp only [hcv.1, hcv.2]
    rw [hca, hcb]
    ring
  · rw [heq] at hok
    simp at hok

/-- C1 (amended) witnessed at `[A: -10, B: empty]`. -/
theorem zero_sum_amended_witness :
    commonSum c2tx.IsBalanced.1.AccountChanges = 0 :=
  zero_sum_amended c2tx (by decide) (by decide)

/-- C2: after inference, if the total is non-zero and exactly one posting
has a zero balance, `IsBalanced` succeeds and writes the negated total into
that posting's balance, leaving the other postings as inference left them. -/
theorem single_empty_inference (t : Transaction)
    (hlen : 2 ≤ t.AccountChanges.length)
    (hbal : commonSum t.inferConversionFactorForTwoCurrencyTx.AccountChanges
      ≠ 0)
    (hone : numEmpty t.inferConversionFactorForTwoCurrencyTx.AccountChanges
      = 1) :
    t.IsBalanced.2 = none ∧
    ∃ (j : Nat) (a : Account),
      t.inferConversionFactorForTwoCurrencyTx.AccountChanges[j]? =
        some a ∧
      a.Balance = 0 ∧
      (∀ j2 a2,
        t.inferConversionFactorForTwoCurrencyTx.AccountChanges[j2]? =
          some a2 → a2.Balance = 0 → j2 = j) ∧
      t.IsBalanced.1.AccountChanges[j]? = some { a with Balance :=
        -(commonSum
          t.inferConversionFactorForTwoCurrencyTx.AccountChanges) } ∧
      ∀ j2, j2 ≠ j → t.IsBalanced.1.AccountChanges[j2]? =
        t.inferConversionFactorForTwoCurrencyTx.AccountChanges[j2]? := by
  rcases IsBalanced_cases t with ⟨hl, _⟩ |
    ⟨_, ⟨hb, _⟩ | ⟨_, hne, _⟩ | ⟨_, hne, heq⟩ | ⟨_, hne, _⟩⟩
  · omega
  · exact absurd hb hbal
  · omega
  · obtain ⟨j, a, hget, hza, hgo, huniq⟩ :=
      lastZeroIdxGo_unique
        t.inferConversionFactorForTwoCurrencyTx.AccountChanges 0 0 hone
    have hlast : lastZeroIdx
        t.inferConversionFactorForTwoCurrencyTx.AccountChanges = j := by
      rw [lastZeroIdx, hgo]
      omega
    refine ⟨by rw [heq], j, a, hget, hza, huniq, ?_, ?_⟩
    · rw [heq]
      simp only []
      rw [hlast, setBalanceAt_getElem? _ j _ j, hget]
      simp
    · intro j2 hj2
      rw [heq]
      simp only []
      rw [hlast, setBalanceAt_getElem? _ j _ j2]
      cases hg2 : t.inferConversionFactorForTwoCurrencyTx.AccountChanges[j2]?
        with
      | none => rfl
      | some b => simp [hj2]
  · omega

/-- C2 witnessed at `[A: -10, B: empty]`: the balancer succeeds and `B`'s
balance becomes `10`, so the transaction balances. -/
theorem single_empty_inference_witness :
    (c2tx.IsBalanced.2 = none ∧ ∃ (j : Nat) (a : Account),
      c2tx.inferConversionFactorForTwoCurrencyTx.AccountChanges[j]? =
        some a ∧
      a.Balance = 0 ∧
      (∀ j2 a2,
        c2tx.inferConversionFactorForTwoCurrencyTx.AccountChanges[j2]? =
          some a2 → a2.Balance = 0 → j2 = j) ∧
      c2tx.IsBalanced.1.AccountChanges[j]? = some { a with Balance :=
        -(commonSum
          c2tx.inferConversionFactorForTwoCurrencyTx.AccountChanges) } ∧
      ∀ j2, j2 ≠ j → c2tx.IsBalanced.1.AccountChanges[j2]? =
        c2tx.inferConversionFactorForTwoCurrencyTx.AccountChanges[j2]?) ∧
    ((c2tx.IsBalanced.1.AccountChanges[1]?).map Account.Balance) = some 10 ∧
    commonSum c2tx.IsBalanced.1.AccountChanges = 0 :=
  ⟨single_empty_inference c2tx (by decide) (by decide) (by decide),
   by decide, by decide⟩

/-- C3: `IsBalanced` produces `need at least two postings` exactly on
transactions with fewer than two postings; with at least two postings it
produces `no empty account to place extra balance` exactly when the
post-inference total is non-zero with no zero-balance posting, and
`more than one account empty` exactly when the total is non-zero with two or
more zero-balance postings; and whenever `block.parseTransaction` reports an
error, no transaction is produced. -/
theorem balance_error_cases (t : Transaction) :
    (t.IsBalanced.2 = some BalanceError.needAtLeastTwoPostings ↔
      t.AccountChanges.length < 2) ∧
    (2 ≤ t.AccountChanges.length →
      ((t.IsBalanced.2 = some BalanceError.noEmptyAccountForExtraBalance ↔
        commonSum t.inferConversionFactorForTwoCurrencyTx.AccountChanges
          ≠ 0 ∧
        numEmpty t.inferConversionFactorForTwoCurrencyTx.AccountChanges
          = 0) ∧
       (t.IsBalanced.2 = some BalanceError.moreThanOneEmptyAccountInTx ↔
        commonSum t.inferConversionFactorForTwoCurrencyTx.AccountChanges
          ≠ 0 ∧
        2 ≤ numEmpty t.inferConversionFactorForTwoCurrencyTx.AccountChanges)))
    ∧
    (∀ b : Block, b.parseTransaction.2.isSome → b.parseTransaction.1 = none)
    := by
  refine ⟨?_, ?_, ?_⟩
  · rcases IsBalanced_cases t with ⟨hlen, heq⟩ |
      ⟨hlen, ⟨_, heq⟩ | ⟨_, _, heq⟩ | ⟨_, _, heq⟩ | ⟨_, _, heq⟩⟩
    · exact ⟨fun _ => hlen, fun _ => by rw [heq]⟩
    all_goals exact ⟨fun h => by rw [heq] at h; simp at h, fun h => by omega⟩
  · intro hlen2
    rcases IsBalanced_cases t with ⟨hl, _⟩ |
      ⟨_, ⟨hb, heq⟩ | ⟨hb, hne, heq⟩ | ⟨hb, hne, heq⟩ | ⟨hb, hne, heq⟩⟩
    · omega
    · rw [heq]
      exact ⟨⟨fun h => by simp at h, fun h => absurd hb h.1⟩,
             ⟨fun h => by simp at h, fun h => absurd hb h.1⟩⟩
    · rw [heq]
      refine ⟨⟨fun _ => ⟨hb, hne⟩, fun _ => rfl⟩,
              ⟨fun h => by simp at h, fun h => absurd h.2 (by omega)⟩⟩
    · rw [heq]
      refine ⟨⟨fun h => by simp at h, fun h => absurd h.2 (by omega)⟩,
              ⟨fun h => by simp at h, fun h => absurd h.2 (by omega)⟩⟩
    · rw [heq]
      refine ⟨⟨fun h => by simp at h, fun h => absurd h.2 (by omega)⟩,
              ⟨fun _ => ⟨hb, hne⟩, fun _ => rfl⟩⟩
  · intro b hs
    rw [Block.parseTransaction] at hs ⊢
    rcases hp : Transaction.IsBalanced
        { Date := b.transDate, Payee := b.payeeString,
          PayeeComment := b.payeeComment,
          AccountChanges := (blockLoop b.lines [] b.comments).1,
          Comments := (blockLoop b.lines [] b.comments).2 } with ⟨t2, oe⟩
    cases oe with
    | none =>
      rw [hp] at hs
      exact Bool.noConfusion hs
    | some e => rfl

/-- C3 witnessed at a single-posting transaction. -/
theorem balance_error_cases_witness :
    c3tx.IsBalanced.2 = some BalanceError.needAtLeastTwoPostings :=
  (balance_error_cases c3tx).1.mpr (by decide)

theorem IsBalancedRange_false (t : Transaction) :
    t.IsBalancedRange false = t.IsBalanced := rfl

/-- C4 (counterexample): the base/other choice comes from iterating the Go
currency map, whose `range` order is unspecified.  When the loop observes
the two groups of `[A: -10 USD, B: 5 EUR]` in the reverse of first-seen
order, the source treats `EUR` as the base group and stores factor `0.5` on
posting `A`, leaving `B` without any conversion factor — so the program does
not guarantee "factor 2 on B with A's fields unchanged". -/
theorem two_currency_inference_cex :
    (c4tx.IsBalancedRange true).2 = none ∧
    (c4tx.IsBalancedRange true).1.AccountChanges[1]? =
      c4tx.AccountChanges[1]? ∧
    (((c4tx.IsBalancedRange true).1.AccountChanges[0]?).map
      Account.ConversionFactor) = some (some (1/2)) ∧
    (((c4tx.IsBalancedRange true).1.AccountChanges[1]?).map
      Account.ConversionFactor) = some none := by
  refine ⟨by decide, by decide, by decide, by decide⟩

/-- C4 (amended): on `[A: -10 USD, B: 5 EUR]` with no explicit rate,
balancing succeeds under both possible map iteration orders and a
conversion factor making the common-unit sum zero is inferred on exactly
one of the two postings, which one depending on the order: under first-seen
order (the pinned embedding, which the spec's §9 choice and the
repository's tests assert) posting `B` receives factor `2` with `A`
unchanged; under the reversed order posting `A` receives factor `0.5` with
`B` unchanged. -/
theorem two_currency_inference_both_orders :
    ((c4tx.IsBalancedRange false).2 = none ∧
     (c4tx.IsBalancedRange false).1.AccountChanges[0]? =
       c4tx.AccountChanges[0]? ∧
     (((c4tx.IsBalancedRange false).1.AccountChanges[1]?).map
       Account.ConversionFactor) = some (some 2) ∧
     (((c4tx.IsBalancedRange false).1.AccountChanges[1]?).map
       Account.Balance) = ((c4tx.AccountChanges[1]?).map Account.Balance) ∧
     commonSum (c4tx.IsBalancedRange false).1.AccountChanges = 0) ∧
    ((c4tx.IsBalancedRange true).2 = none ∧
     (c4tx.IsBalancedRange true).1.AccountChanges[1]? =
       c4tx.AccountChanges[1]? ∧
     (((c4tx.IsBalancedRange true).1.AccountChanges[0]?).map
       Account.ConversionFactor) = some (some (1/2)) ∧
     commonSum (c4tx.IsBalancedRange true).1.AccountChanges = 0) ∧
    c4tx.IsBalancedRange false = c4tx.IsBalanced := by
  refine ⟨⟨by decide, by decide, by decide, by decide, by decide⟩,
    ⟨by decide, by decide, by decide, by decide⟩, rfl⟩

/-- C5 (counterexample): a transaction whose non-empty-currency postings form
exactly two currency groups (`CZK`, `EUR`) but which also contains an
empty-currency posting: the balancer succeeds without inferring any
conversion factor — the empty-currency posting aborts the partition instead
of merely not participating. -/
theorem empty_currency_skips_inference_cex :
    (c5tx.AccountChanges.map Account.Currency) = ["CZK", "EUR", ""] ∧
    c5tx.inferConversionFactorForTwoCurrencyTx = c5tx ∧
    c5tx.IsBalanced.2 = none ∧
    ∀ a ∈ c5tx.IsBalanced.1.AccountChanges, a.ConversionFactor = none := by
  refine ⟨by decide, by decide, by decide, by decide⟩

/-- C5 (amended): conversion-factor inference runs only when every posting
carries a non-empty currency; a transaction containing any empty-currency
posting skips inference entirely and is left unchanged by it. -/
theorem empty_currency_skips_inference (t : Transaction)
    (h : ∃ a ∈ t.AccountChanges, a.Currency = "") :
    t.inferConversionFactorForTwoCurrencyTx = t := by
  rw [Transaction.inferConversionFactorForTwoCurrencyTx]
  rw [buildCurrencyMap, buildCurrencyMapGo_none t.AccountChanges 0 [] h]

/-- C5 (amended) witnessed at the counterexample transaction. -/
theorem empty_currency_skips_inference_witness :
    c5tx.inferConversionFactorForTwoCurrencyTx = c5tx :=
  empty_currency_skips_inference c5tx (by decide)

/-- C8: the collection loop of `ParseLedger`/`ParseLedgerFile` never returns
a non-nil error — on the first error result it executes `return nil, err`
with `err` the never-assigned named return value, so a caller receives
`(nil, nil)`; in particular for a stream whose only result carries the
`need at least two postings` parse error. -/
theorem parse_ledger_error_dropped :
    (∀ results : List GoResult, (ParseLedgerCollect results).2 = none) ∧
    ParseLedgerCollect
      [⟨none, some (":2: unable to parse transaction: need at least two postings")⟩] =
      (none, none) := by
  constructor
  · intro rs
    exact parseLedgerFileLoop_err_none rs []
  · rfl

/-- C6 (counterexample): the block `[Expense  (1 + ), Assets  5]` contains a
posting line whose parenthesized expression fails to evaluate —
`parsePosting` does report a per-line error — yet `block.parseTransaction`
produces a Transaction with no error: the per-line error is discarded, the
malformed line becomes a zero-balance posting, and the balancer fills it
with `-5`. -/
theorem posting_error_no_abort_cex :
    evaluate ("(1 + )") = none ∧
    (parsePosting ("\tExpense  (1 + )") "").2 =
      some (PostErr.evalError ("(1 + )")) ∧
    c6block.parseTransaction.2 = none ∧
    (c6block.parseTransaction.1.map
      (fun t => t.AccountChanges.map Account.Balance)) = some [-5, 5] := by
  refine ⟨by decide, by decide, by decide, by decide⟩

/-- C6 (amended): posting-line parse failures never abort a transaction
block: the only errors `block.parseTransaction` can return are the balance
errors of `IsBalanced`. -/
theorem posting_errors_discarded (b : Block) :
    b.parseTransaction.2 = none ∨
    ∃ e : BalanceError, b.parseTransaction.2 = some e.message := by
  rw [Block.parseTransaction]
  rcases hp : Transaction.IsBalanced
      { Date := b.transDate, Payee := b.payeeString,
        PayeeComment := b.payeeComment,
        AccountChanges := (blockLoop b.lines [] b.comments).1,
        Comments := (blockLoop b.lines [] b.comments).2 } with ⟨t2, oe⟩
  cases oe with
  | none => exact Or.inl rfl
  | some e => exact Or.inr ⟨e, rfl⟩

/-- C10: `IsBalanced` preserves the transaction's `Date`, `Payee`,
`PayeeComment` and `Comments`, the number of postings, and every posting's
`Name`, `Currency`, `Comment` and `Converted`; a posting's `Balance` can
change only when it is the unique zero-balance posting (and then the call
succeeded), and a posting's `ConversionFactor` can change only when the
posting carried neither an explicit factor nor a converted amount and has a
non-empty currency (membership in the inferred group). -/
theorem isBalanced_frame (t : Transaction) :
    t.IsBalanced.1.Date = t.Date ∧
    t.IsBalanced.1.Payee = t.Payee ∧
    t.IsBalanced.1.PayeeComment = t.PayeeComment ∧
    t.IsBalanced.1.Comments = t.Comments ∧
    t.IsBalanced.1.AccountChanges.length = t.AccountChanges.length ∧
    ∀ (j : Nat) (a a2 : Account), t.AccountChanges[j]? = some a →
      t.IsBalanced.1.AccountChanges[j]? = some a2 →
      a2.Name = a.Name ∧ a2.Currency = a.Currency ∧
      a2.Comment = a.Comment ∧ a2.Converted = a.Converted ∧
      (a2.Balance ≠ a.Balance →
        a.Balance = 0 ∧ t.IsBalanced.2 = none ∧
        ∀ (j2 : Nat) (b : Account),
          t.inferConversionFactorForTwoCurrencyTx.AccountChanges[j2]? =
            some b → b.Balance = 0 → j2 = j) ∧
      (a2.ConversionFactor ≠ a.ConversionFactor →
        a.ConversionFactor = none ∧ a.Converted = none ∧ a.Currency ≠ "")
    := by
  rcases IsBalanced_cases t with ⟨hlen, heq⟩ |
    ⟨hlen, ⟨hbal, heq⟩ | ⟨hbal, hne, heq⟩ | ⟨hbal, hne, heq⟩ |
      ⟨hbal, hne, heq⟩⟩
  · rw [heq]
    refine ⟨rfl, rfl, rfl, rfl, rfl, ?_⟩
    intro j a a2 hja hja2
    rw [hja] at hja2
    injection hja2 with h2
    subst h2
    exact ⟨rfl, rfl, rfl, rfl, fun h => absurd rfl h, fun h => absurd rfl h⟩
  · rw [heq]
    obtain ⟨hd, hp, hpc, hc, hl⟩ := infer_fields t
    refine ⟨hd, hp, hpc, hc, hl, ?_⟩
    intro j a a2 hja hja2
    obtain ⟨a1, hg1, hn, hcu, hco, hcv, hb, hcf⟩ := infer_getElem?_rel t j a hja
    rw [hja2] at hg1
    injection hg1 with h2
    subst h2
    exact ⟨hn, hcu, hco, hcv, fun h => absurd hb h, hcf⟩
  · rw [heq]
    obtain ⟨hd, hp, hpc, hc, hl⟩ := infer_fields t
    refine ⟨hd, hp, hpc, hc, hl, ?_⟩
    intro j a a2 hja hja2
    obtain ⟨a1, hg1, hn, hcu, hco, hcv, hb, hcf⟩ := infer_getElem?_rel t j a hja
    rw [hja2] at hg1
    injection hg1 with h2
    subst h2
    exact ⟨hn, hcu, hco, hcv, fun h => absurd hb h, hcf⟩
  · obtain ⟨hd, hp, hpc, hc, hl⟩ := infer_fields t
    obtain ⟨j0, b0, hgb0, hzb0, hgo0, huniq0⟩ :=
      lastZeroIdxGo_unique
        t.inferConversionFactorForTwoCurrencyTx.AccountChanges 0 0 hne
    have hlast : lastZeroIdx
        t.inferConversionFactorForTwoCurrencyTx.AccountChanges = j0 := by
      rw [lastZeroIdx, hgo0]
      omega
    rw [heq]
    refine ⟨hd, hp, hpc, hc, ?_, ?_⟩
    · rw [setBalanceAt_length]
      exact hl
    · intro j a a2 hja hja2
      obtain ⟨a1, hg1, hn, hcu, hco, hcv, hb, hcf⟩ :=
        infer_getElem?_rel t j a hja
      simp only [] at hja2
      rw [hlast, setBalanceAt_getElem?, hg1] at hja2
      simp only [Option.map] at hja2
      injection hja2 with h2
      by_cases hjj : j = j0
      · rw [if_pos hjj] at h2
        subst h2
        refine ⟨hn, hcu, hco, hcv, ?_, hcf⟩
        intro _
        subst hjj
        rw [hgb0] at hg1
        injection hg1 with h1
        refine ⟨?_, rfl, ?_⟩
        · rw [← hb, ← h1]
          exact hzb0
        · intro j2 b hj2 hzb
          exact huniq0 j2 b hj2 hzb
      · rw [if_neg hjj] at h2
        subst h2
        exact ⟨hn, hcu, hco, hcv, fun h => absurd hb h, hcf⟩
  · rw [heq]
    obtain ⟨hd, hp, hpc, hc, hl⟩ := infer_fields t
    refine ⟨hd, hp, hpc, hc, hl, ?_⟩
    intro j a a2 hja hja2
    obtain ⟨a1, hg1, hn, hcu, hco, hcv, hb, hcf⟩ := infer_getElem?_rel t j a hja
    rw [hja2] at hg1
    injection hg1 with h2
    subst h2
    exact ⟨hn, hcu, hco, hcv, fun h => absurd hb h, hcf⟩

theorem goTrimSpaceList_subset (l : List Char) :
    ∀ c ∈ goTrimSpaceList l, c ∈ l := by
  intro c hc
  rw [goTrimSpaceList] at hc
  rw [List.mem_reverse] at hc
  have h1 := (List.dropWhile_sublist isGoSpace).subset hc
  rw [List.mem_reverse] at h1
  exact (List.dropWhile_sublist isGoSpace).subset h1

theorem tailMatch_nil_isSome (nameRev : List Char) :
    (tailMatch nameRev.reverse []).isSome := by
  rw [tailMatch]
  cases ht : tailWithGroup nameRev.reverse [] with
  | some g => rfl
  | none =>
    have : ([] : List Char).all isReSpace = true := rfl
    rw [this, if_pos rfl]
    rfl

theorem matchFrom_isSome (cs : List Char) (nameRev : List Char)
    (h : ∀ c ∈ cs, c ≠ '\n') : (matchFrom nameRev cs).isSome := by
  induction cs generalizing nameRev with
  | nil =>
    rw [matchFrom]
    cases ht : tailMatch nameRev.reverse [] with
    | some g => rfl
    | none =>
      have := tailMatch_nil_isSome nameRev
      rw [ht] at this
      exact absurd this (by simp)
  | cons c rest ih =>
    rw [matchFrom]
    cases ht : tailMatch nameRev.reverse (c :: rest) with
    | some g => rfl
    | none =>
      have hcne : c ≠ '\n' := h c (by simp)
      show (if c = '\n' then none
            else matchFrom (c :: nameRev) rest).isSome
      rw [if_neg hcne]
      exact ih (c :: nameRev) (fun b hb => h b (by simp [hb]))

theorem postingMatch_isSome (cs : List Char) (hne : cs ≠ [])
    (h : ∀ c ∈ cs, c ≠ '\n') : (postingMatch cs).isSome := by
  cases cs with
  | nil => exact absurd rfl hne
  | cons c rest =>
    have hcne : c ≠ '\n' := h c (by simp)
    rw [postingMatch]
    show (if c = '\n' then none else matchFrom [c] rest).isSome
    rw [if_neg hcne]
    exact matchFrom_isSome rest [c] (fun b hb => h b (by simp [hb]))

theorem parsePostingFactor_not_invalid (a : Account) (m : PostingGroups) :
    ((parsePostingFactor a m).2.all (fun e => !e.isInvalid)) = true := by
  cases hf : m.factor with
  | none => simp [parsePostingFactor, hf]
  | some fc =>
    cases hd : decFromString fc with
    | none => simp [parsePostingFactor, hf, hd, PostErr.isInvalid]
    | some d => simp [parsePostingFactor, hf, hd]

theorem parsePostingConv_not_invalid (a : Account) (m : PostingGroups) :
    ((parsePostingConv a m).2.all (fun e => !e.isInvalid)) = true := by
  cases hf : m.converted with
  | none =>
    simp only [parsePostingConv, hf]
    exact parsePostingFactor_not_invalid a m
  | some cv =>
    cases hd : decFromString cv with
    | none => simp [parsePostingConv, hf, hd, PostErr.isInvalid]
    | some d =>
      simp only [parsePostingConv, hf, hd]
      exact parsePostingFactor_not_invalid _ m

/-- C9: every line that is non-empty after trimming (and free of embedded
newlines, as lines delivered by the scanner are) matches the posting
pattern, so the `invalid posting` branch is unreachable and `parsePosting`
can fail only in expression evaluation or decimal conversion; and a line
whose text after the separator is not a valid amount field is absorbed into
the account name with a zero balance. -/
theorem posting_regex_total :
    (∀ s comment : String, goTrimSpace s ≠ "" →
      (∀ c ∈ s.toList, c ≠ '\n') →
      (postingMatch (goTrimSpaceList s.toList)).isSome ∧
      ((parsePosting s comment).2.all (fun e => !e.isInvalid)) = true) ∧
    parsePosting ("Assets  12abc") "" =
      ({ Name := "Assets  12abc", Currency := "", Balance := 0, Comment := "",
         Converted := none, ConversionFactor := none }, none) := by
  constructor
  · intro s comment hne h
    have hcs : goTrimSpaceList s.toList ≠ [] := by
      intro hnil
      apply hne
      rw [goTrimSpace, hnil]
    have hno : ∀ c ∈ goTrimSpaceList s.toList, c ≠ '\n' :=
      fun c hc => h c (goTrimSpaceList_subset s.toList c hc)
    have hsome := postingMatch_isSome (goTrimSpaceList s.toList) hcs hno
    refine ⟨hsome, ?_⟩
    cases hm : postingMatch (goTrimSpaceList s.toList) with
    | none =>
      rw [hm] at hsome
      exact absurd hsome (by simp)
    | some m =>
      cases ha : m.amount with
      | none =>
        simp only [parsePosting, hm, ha]
        exact parsePostingConv_not_invalid _ m
      | some amt =>
        cases he : evaluate (String.mk amt) with
        | none =>
          simp only [parsePosting, hm, ha, he, Option.all, PostErr.isInvalid]
          rfl
        | some v =>
          simp only [parsePosting, hm, ha, he]
          exact parsePostingConv_not_invalid _ m
  · decide

/-- C9 witnessed at the line `Assets  5`. -/
theorem posting_regex_total_witness :
    (postingMatch (goTrimSpaceList ("Assets  5").toList)).isSome ∧
    ((parsePosting ("Assets  5") "").2.all (fun e => !e.isInvalid)) = true :=
  (posting_regex_total).1 ("Assets  5") "" (by decide) (by decide)

theorem blockPhaseGo_err (filename : String) (blocks : List Block) :
    ∀ acc, (∀ b ∈ blocks, b.filename = filename) →
    ∀ s, LResult.err s ∈ blockPhaseGo acc blocks →
      ∃ (m : Nat) (cause : String),
        s = filename ++ ":" ++ toString m ++
          ": unable to parse transaction: " ++ cause := by
  induction blocks with
  | nil =>
    intro acc _ s hs
    simp [blockPhaseGo] at hs
  | cons b bs ih =>
    intro acc hb s hs
    rw [blockPhaseGo] at hs
    split at hs
    · rename_i fst e hp
      rcases List.mem_cons.mp hs with heq | hmem
      · injection heq with h1
        refine ⟨b.lineNum, e, ?_⟩
        rw [h1, hb b (List.mem_cons_self _ _)]
      · exact ih acc (fun b2 h2 => hb b2 (List.mem_cons_of_mem _ h2)) s hmem
    · exact ih _ (fun b2 h2 => hb b2 (List.mem_cons_of_mem _ h2)) s hs
    · exact ih acc (fun b2 h2 => hb b2 (List.mem_cons_of_mem _ h2)) s hs

theorem ledgerScan_err_format (fuel : Nat) :
    ∀ (filename : String) (lines : List String) (n : Nat)
      (comments : List String) (blocks : List Block),
      (∀ l ∈ lines, lineIsInclude l = false) →
      (∀ b ∈ blocks, b.filename = filename) →
      ∀ s, LResult.err s ∈ ledgerScan fuel filename n lines comments blocks →
        ∃ (m : Nat) (cause : String),
          s = filename ++ ":" ++ toString m ++
            ": unable to parse transaction: " ++ cause := by
  induction fuel with
  | zero =>
    intro filename lines n comments blocks _ _ s hs
    simp [ledgerScan] at hs
  | succ fuel ih =>
    intro filename lines n comments blocks hni hb s hs
    cases lines with
    | nil =>
      rw [ledgerScan] at hs
      exact blockPhaseGo_err filename blocks [] hb s hs
    | cons line rest =>
      rw [ledgerScan] at hs
      have hrest : ∀ l ∈ rest, lineIsInclude l = false :=
        fun l hl => hni l (List.mem_cons_of_mem _ hl)
      split at hs
      case isTrue h0 => exact ih filename rest (n + 1) _ blocks hrest hb s hs
      case isFalse h0 =>
        split at hs
        case h_1 hcut =>
          rcases List.mem_cons.mp hs with heq | hmem
          · injection heq with h1
            exact ⟨n + 1, _, h1⟩
          · exact ih filename rest (n + 1) _ blocks hrest hb s hmem
        case h_2 before after hcut =>
          split at hs
          case isTrue hacc =>
            exact ih filename _ _ comments blocks
              (fun l hl => hrest l (List.drop_subset _ _ hl)) hb s hs
          case isFalse hacc =>
            split at hs
            case isTrue hinc =>
              exfalso
              have hl1 : lineIsInclude line = true := by
                rw [lineIsInclude, if_neg h0, hcut]
                simp [hacc, hinc]
              rw [hni line (List.mem_cons_self _ _)] at hl1
              exact Bool.noConfusion hl1
            case isFalse hinc =>
              split at hs
              case h_1 hdm =>
                rcases List.mem_cons.mp hs with heq | hmem
                · injection heq with h1
                  exact ⟨n + 1, _, h1⟩
                · exact ih filename rest (n + 1) comments blocks hrest hb s
                    hmem
              case h_2 d hdm =>
                refine ih filename _ _ [] _
                  (fun l hl => hrest l (List.drop_subset _ _ hl)) ?_ s hs
                intro b2 hb2
                rcases List.mem_append.mp hb2 with h2 | h2
                · exact hb b2 h2
                · rw [List.mem_singleton] at h2
                  rw [h2]

/-- C7 (counterexample): on the repository's own `unbalanced error` input —
one block whose header (the block's first retained line) is physical line 1
— the emitted per-block error carries line 3, the line at which the block's
scan stopped; no error with line 1 is emitted. -/
theorem error_line_number_cex :
    parseLedgerModel "" demoLines =
      [LResult.err (":3: unable to parse transaction: unable to balance transaction: no empty account to place extra balance"),
       LResult.txs []] ∧
    demoLines[0]? = some ("1970/01/01 Payee") ∧
    ∀ r ∈ parseLedgerModel "" demoLines,
      r ≠ LResult.err (":1: unable to parse transaction: unable to balance transaction: no empty account to place extra balance") := by
  refine ⟨by decide, by decide, by decide⟩

/-- C7 (amended): in the absence of include directives, every error the
parse emits has the exact shape
`<source>:<line>: unable to parse transaction: <cause>` (with `<source>`
empty for anonymous streams, since `filename` may be instantiated with
`""`); for per-block errors `<line>` is the block's recorded `lineNum`,
which is the scanner's position after the block was consumed — not the
block's first retained line. -/
theorem error_format_amended (filename : String) (lines : List String)
    (hni : ∀ l ∈ lines, lineIsInclude l = false) :
    ∀ s, LResult.err s ∈ parseLedgerModel filename lines →
      ∃ (m : Nat) (cause : String),
        s = filename ++ ":" ++ toString m ++
          ": unable to parse transaction: " ++ cause := by
  intro s hs
  exact ledgerScan_err_format (lines.length + 1) filename lines 0 [] [] hni
    (fun b hb => absurd hb (List.not_mem_nil b)) s hs

/-- C7 (amended) witnessed on the `unbalanced error` stream. -/
theorem error_format_amended_witness :
    ∃ (m : Nat) (cause : String),
      (":3: unable to parse transaction: unable to balance transaction: no empty account to place extra balance")
        = "" ++ ":" ++ toString m ++
          ": unable to parse transaction: " ++ cause :=
  error_format_amended "" demoLines (by decide)
    (":3: unable to parse transaction: unable to balance transaction: no empty account to place extra balance")
    (by decide)

/-- C10 witnessed at the two-currency example: posting 0 keeps its name and
converted amount. -/
theorem isBalanced_frame_witness :
    ∃ a a2 : Account, c4tx.AccountChanges[0]? = some a ∧
      c4tx.IsBalanced.1.AccountChanges[0]? = some a2 ∧
      a2.Name = a.Name ∧ a2.Converted = a.Converted := by
  have h := (isBalanced_frame c4tx).2.2.2.2.2 0
    (demoAcc "A" "USD" (-10)) (demoAcc "A" "USD" (-10))
    (by decide) (by decide)
  exact ⟨demoAcc "A" "USD" (-10), demoAcc "A" "USD" (-10),
    by decide, by decide, h.1, h.2.2.2.1⟩

end LedgerSpec
